import Mathlib

/-!
# Verification of the log4js `clustered` appender transport core

Shallow embedding of `lib/appenders/clustered.js`: the event codec
(`serializeLoggingEvent` / `deserializeLoggingEvent`), the coordinator-side
fan-out (`masterAppender`), the worker-message handler attached on
`cluster.on('fork')`, and the worker-side forwarder returned by
`createAppender` in a non-master process.

The host JSON layer (`JSON.stringify` / `JSON.parse`) is embedded as an
executable renderer and recursive-descent parser over a JSON AST (`Json`),
with a proved parse-of-render round trip.  JavaScript runtime values that can
appear in a logging event's `data` array are embedded as the inductive
`JsValue`; numbers are embedded as `Int` (none of the verified properties
depend on floating-point behaviour), and values are finite trees (the
embedding cannot express cyclic object graphs).
-/

namespace Log4jsClustered

/-- JSON AST: the structured form underlying the transport text. -/
inductive Json where
  | null
  | bool (b : Bool)
  | num (n : Int)
  | str (s : String)
  | arr (elems : List Json)
  | obj (fields : List (String × Json))
deriving Repr

/-! ## Character utilities shared by renderer and parser -/

def isWsChar (c : Char) : Bool :=
  decide (c = ' ' ∨ c = '\t' ∨ c = '\n' ∨ c = '\r')

/-- Drop leading JSON whitespace. -/
def skipWs : List Char → List Char
  | [] => []
  | c :: cs => if isWsChar c then skipWs cs else c :: cs

/-- Decimal digit characters of a natural number, most significant first
(fuel-indexed so that the definition is structurally recursive and hence
evaluable by the kernel; `natChars` supplies sufficient fuel). -/
def natCharsAux : Nat → Nat → List Char
  | 0, _ => []
  | f + 1, n =>
    if n < 10 then [Nat.digitChar n]
    else natCharsAux f (n / 10) ++ [Nat.digitChar (n % 10)]

def natChars (n : Nat) : List Char := natCharsAux (n + 1) n

/-- Decimal rendering of an integer (JSON number in our integral model). -/
def intChars (n : Int) : List Char :=
  if n < 0 then '-' :: natChars n.natAbs else natChars n.toNat

/-- Escape one character for a JSON string literal.  The model escapes the
two characters that would break the literal (quote and backslash); control
characters are carried verbatim, which the paired parser also accepts. -/
def escChar (c : Char) : List Char :=
  if c = '"' ∨ c = '\\' then ['\\', c] else [c]

def escList : List Char → List Char
  | [] => []
  | c :: cs => escChar c ++ escList cs

/-! ## Renderer (the model of `JSON.stringify` on the JSON AST) -/

mutual

def render : Json → List Char
  | .null => "null".data
  | .bool true => "true".data
  | .bool false => "false".data
  | .num n => intChars n
  | .str s => '"' :: (escList s.data ++ ['"'])
  | .arr xs => '[' :: (renderArr xs ++ [']'])
  | .obj fs => '{' :: (renderObj fs ++ ['}'])

def renderArr : List Json → List Char
  | [] => []
  | [x] => render x
  | x :: y :: ys => render x ++ ',' :: renderArr (y :: ys)

def renderObj : List (String × Json) → List Char
  | [] => []
  | [(k, v)] => '"' :: (escList k.data ++ '"' :: ':' :: render v)
  | (k, v) :: g :: gs =>
      ('"' :: (escList k.data ++ '"' :: ':' :: render v)) ++ ',' :: renderObj (g :: gs)

end

def renderJson (j : Json) : String := String.mk (render j)

/-! ## Parser (the model of `JSON.parse`) -/

def headIs (cs : List Char) (c : Char) : Bool :=
  match cs with
  | [] => false
  | d :: _ => d == c

/-- Consume an expected literal character sequence. -/
def dropLit : List Char → List Char → Option (List Char)
  | [], cs => some cs
  | _ :: _, [] => none
  | p :: ps, c :: cs => if c == p then dropLit ps cs else none

/-- Longest digit run at the head of the input. -/
def takeDigits : List Char → List Char × List Char
  | [] => ([], [])
  | c :: cs =>
    if c.isDigit then
      let p := takeDigits cs
      (c :: p.1, p.2)
    else ([], c :: cs)

def digitVal (c : Char) : Nat := c.toNat - 48

def digitsToNat (ds : List Char) : Nat :=
  ds.foldl (fun a c => a * 10 + digitVal c) 0

def parseNatTok (cs : List Char) : Option (Nat × List Char) :=
  match takeDigits cs with
  | ([], _) => none
  | (ds, r) => some (digitsToNat ds, r)

def parseIntTok (cs : List Char) : Option (Int × List Char) :=
  if headIs cs '-' then
    (parseNatTok cs.tail).map (fun p => (-(p.1 : Int), p.2))
  else
    (parseNatTok cs).map (fun p => ((p.1 : Int), p.2))

/-- Translation of a JSON escape character (the character after `\`). -/
def unescCharTable (c : Char) : Option Char :=
  if c = '"' then some '"'
  else if c = '\\' then some '\\'
  else if c = '/' then some '/'
  else if c = 'n' then some '\n'
  else if c = 't' then some '\t'
  else if c = 'r' then some '\r'
  else if c = 'b' then some (Char.ofNat 8)
  else if c = 'f' then some (Char.ofNat 12)
  else none

/-- Parse the body of a JSON string literal (after the opening quote),
returning the decoded characters and the input after the closing quote. -/
def parseStrBody : List Char → Option (List Char × List Char)
  | [] => none
  | c :: cs =>
    if c == '"' then some ([], cs)
    else if c == '\\' then
      match cs with
      | [] => none
      | d :: cs2 =>
        match unescCharTable d with
        | some e => (parseStrBody cs2).map (fun p => (e :: p.1, p.2))
        | none => none
    else (parseStrBody cs).map (fun p => (c :: p.1, p.2))

mutual

def parseVal : Nat → List Char → Option (Json × List Char)
  | 0, _ => none
  | fuel + 1, cs0 =>
    match skipWs cs0 with
    | [] => none
    | c :: cs =>
      if c.isDigit || c == '-' then
        (parseIntTok (c :: cs)).map (fun p => (Json.num p.1, p.2))
      else if c == '"' then
        (parseStrBody cs).map (fun p => (Json.str (String.mk p.1), p.2))
      else if c == '[' then
        (if headIs (skipWs cs) ']' then some (Json.arr [], (skipWs cs).tail)
         else (parseElems fuel (skipWs cs)).map (fun p => (Json.arr p.1, p.2)))
      else if c == '{' then
        (if headIs (skipWs cs) '}' then some (Json.obj [], (skipWs cs).tail)
         else (parseFields fuel (skipWs cs)).map (fun p => (Json.obj p.1, p.2)))
      else if c == 'n' then (dropLit ['u', 'l', 'l'] cs).map (fun r => (Json.null, r))
      else if c == 't' then (dropLit ['r', 'u', 'e'] cs).map (fun r => (Json.bool true, r))
      else if c == 'f' then (dropLit ['a', 'l', 's', 'e'] cs).map (fun r => (Json.bool false, r))
      else none

def parseElems : Nat → List Char → Option (List Json × List Char)
  | 0, _ => none
  | fuel + 1, cs =>
    match parseVal fuel cs with
    | none => none
    | some (x, r) =>
      match skipWs r with
      | [] => none
      | c :: r2 =>
        if c == ',' then
          match parseElems fuel r2 with
          | none => none
          | some (xs, r3) => some (x :: xs, r3)
        else if c == ']' then some ([x], r2)
        else none

def parseFields : Nat → List Char → Option (List (String × Json) × List Char)
  | 0, _ => none
  | fuel + 1, cs =>
    match skipWs cs with
    | [] => none
    | c :: r0 =>
      if c == '"' then
        match parseStrBody r0 with
        | none => none
        | some (k, r1) =>
          match skipWs r1 with
          | [] => none
          | d :: r2 =>
            if d == ':' then
              match parseVal fuel r2 with
              | none => none
              | some (v, r3) =>
                match skipWs r3 with
                | [] => none
                | e :: r4 =>
                  if e == ',' then
                    match parseFields fuel r4 with
                    | none => none
                    | some (fs, r5) => some ((String.mk k, v) :: fs, r5)
                  else if e == '}' then some ([(String.mk k, v)], r4)
                  else none
            else none
      else none

end

/-- The model of `JSON.parse`: parse one JSON value and require that only
whitespace follows.  `none` models a thrown `SyntaxError`. -/
def parseJson (s : String) : Option Json :=
  match parseVal (s.length + 1) s.data with
  | some (j, r) => if skipWs r = [] then some j else none
  | none => none

/-! ## JavaScript runtime values

`JsValue` embeds the values a logging call can place in `data`.  `error st fs`
is an error-like object: its `stack` property (`st`) is a non-enumerable own
property — readable via property access but invisible to `JSON.stringify` —
while `fs` are its enumerable fields.  `func` stands for function values
(which `JSON.stringify` drops) and `undefined` for `undefined`. -/
inductive JsValue where
  | undefined
  | null
  | bool (b : Bool)
  | num (n : Int)
  | str (s : String)
  | arr (elems : List JsValue)
  | obj (fields : List (String × JsValue))
  | error (stack : String) (fields : List (String × JsValue))
  | func
deriving Repr

/-- JavaScript truthiness of an embedded value (`NaN` and `-0` do not exist
in the integral number model). -/
def truthy : JsValue → Bool
  | .undefined => false
  | .null => false
  | .bool b => b
  | .num n => n != 0
  | .str s => !(s == "")
  | _ => true

/-- Last-wins association-list lookup: JavaScript object fields written later
shadow earlier ones (as `JSON.parse` also behaves on duplicate keys). -/
def lookupLast {α : Type} (fs : List (String × α)) (k : String) : Option α :=
  match fs with
  | [] => none
  | (k', v) :: rest =>
    match lookupLast rest k with
    | some r => some r
    | none => if k' == k then some v else none

/-- Property access `v[k]` on an embedded value; absent properties read as
`undefined`.  On an error-like value, `stack` reads the non-enumerable stack
string.  (Exotic host properties such as `String.length` are not modelled;
none of the verified code paths reads them.) -/
def getProp (v : JsValue) (k : String) : JsValue :=
  match v with
  | .obj fs => (lookupLast fs k).getD .undefined
  | .error st fs => if k == "stack" then .str st else (lookupLast fs k).getD .undefined
  | _ => .undefined

mutual

/-- The value-level behaviour of `JSON.stringify`: `none` for values that
serialize to nothing (`undefined`, functions); enumerable fields only, so an
error-like value with no enumerable fields becomes the empty object. -/
def jsToJson : JsValue → Option Json
  | .undefined => none
  | .func => none
  | .null => some .null
  | .bool b => some (.bool b)
  | .num n => some (.num n)
  | .str s => some (.str s)
  | .arr xs => some (.arr (jsArrToJson xs))
  | .obj fs => some (.obj (jsFieldsToJson fs))
  | .error _ fs => some (.obj (jsFieldsToJson fs))

/-- Array elements that serialize to nothing become `null` (JS semantics). -/
def jsArrToJson : List JsValue → List Json
  | [] => []
  | x :: xs =>
    match jsToJson x with
    | some j => j :: jsArrToJson xs
    | none => .null :: jsArrToJson xs

/-- Object entries whose value serializes to nothing are dropped (JS semantics). -/
def jsFieldsToJson : List (String × JsValue) → List (String × Json)
  | [] => []
  | (k, v) :: fs =>
    match jsToJson v with
    | some j => (k, j) :: jsFieldsToJson fs
    | none => jsFieldsToJson fs

end

mutual

/-- The value produced by `JSON.parse`, as a `JsValue`. -/
def jsOfJson : Json → JsValue
  | .null => .null
  | .bool b => .bool b
  | .num n => .num n
  | .str s => .str s
  | .arr xs => .arr (jsOfJsonArr xs)
  | .obj fs => .obj (jsOfJsonFields fs)

def jsOfJsonArr : List Json → List JsValue
  | [] => []
  | x :: xs => jsOfJson x :: jsOfJsonArr xs

def jsOfJsonFields : List (String × Json) → List (String × JsValue)
  | [] => []
  | (k, v) :: fs => (k, jsOfJson v) :: jsOfJsonFields fs

end

mutual

/-- Executable structural equality on embedded values. -/
def jsValueBEq : JsValue → JsValue → Bool
  | .undefined, .undefined => true
  | .null, .null => true
  | .bool a, .bool b => a == b
  | .num a, .num b => a == b
  | .str a, .str b => a == b
  | .arr a, .arr b => jsListBEq a b
  | .obj a, .obj b => jsFieldsBEq a b
  | .error s a, .error t b => s == t && jsFieldsBEq a b
  | .func, .func => true
  | _, _ => false

def jsListBEq : List JsValue → List JsValue → Bool
  | [], [] => true
  | a :: as_, b :: bs => jsValueBEq a b && jsListBEq as_ bs
  | _, _ => false

def jsFieldsBEq : List (String × JsValue) → List (String × JsValue) → Bool
  | [], [] => true
  | (k, a) :: as_, (l, b) :: bs => k == l && jsValueBEq a b && jsFieldsBEq as_ bs
  | _, _ => false

end

instance : BEq JsValue := ⟨jsValueBEq⟩

/-- `JSON.stringify` on an embedded value, as the host returns it: a string,
or nothing for values that do not serialize at all. -/
def jsStringify (v : JsValue) : Option String :=
  (jsToJson v).map renderJson

/-! ## Levels

Modelled from the spec: the level table itself lives in `lib/levels.js` /
`lib/log4js.js`, which are not part of the transport-core source; the spec
describes `level` as "an ordered severity value (e.g., DEBUG < INFO < WARN <
ERROR), represented canonically by a name string (`levelStr`) and
reconstructed from it on decode".  We embed the canonical ordered levels with
their name strings and numeric ranks, and `log4js.levels.toLevel` as lookup
of a level by its exact name string (non-strings and unknown names yield no
level, i.e. JS `undefined`). -/
inductive Level where
  | ALL
  | TRACE
  | DEBUG
  | INFO
  | WARN
  | ERROR
  | FATAL
  | OFF
deriving Repr, DecidableEq

def levelStrOf : Level → String
  | .ALL => "ALL"
  | .TRACE => "TRACE"
  | .DEBUG => "DEBUG"
  | .INFO => "INFO"
  | .WARN => "WARN"
  | .ERROR => "ERROR"
  | .FATAL => "FATAL"
  | .OFF => "OFF"

def levelValue : Level → Int
  | .ALL => -1000000
  | .TRACE => 5000
  | .DEBUG => 10000
  | .INFO => 20000
  | .WARN => 30000
  | .ERROR => 40000
  | .FATAL => 50000
  | .OFF => 1000000

def levelsList : List Level :=
  [.ALL, .TRACE, .DEBUG, .INFO, .WARN, .ERROR, .FATAL, .OFF]

/-- Modelled from the spec: `log4js.levels.toLevel` reconstructs a level from
its name string; any other argument yields no level (JS `undefined`). -/
def toLevel (v : JsValue) : Option Level :=
  match v with
  | .str s => levelsList.find? (fun l => levelStrOf l == s)
  | _ => none

/-! ## The logging event and the encoder (`serializeLoggingEvent`) -/

/-- The unit of transport, as produced by the logging front-end: category,
level, start time (a valid `Date`, embedded as milliseconds since epoch) and
the positional `data` list. -/
structure LoggingEvent where
  categoryName : String
  startTime : Int
  level : Level
  data : List JsValue
deriving Repr

/-- Modelled host semantics: `JSON.stringify` serializes a `Date` through
`Date.prototype.toJSON` as a text form that `new Date(text)` parses back to
the same millisecond instant; the model renders the millisecond count in
decimal (the round-trip property of the host pair is what the code relies
on, not the concrete ISO-8601 layout). -/
def dateToJSON (ms : Int) : String := String.mk (intChars ms)

/-- `new Date(text)`: `none` models an Invalid Date. -/
def parseDateString (s : String) : Option Int :=
  match parseIntTok s.data with
  | some (n, []) => some n
  | _ => none

/-- `new Date(v)` for the argument shapes a parsed JSON value can take. -/
def jsNewDate (v : JsValue) : Option Int :=
  match v with
  | .num n => some n
  | .str s => parseDateString s
  | .null => some 0
  | .bool b => some (if b then 1 else 0)
  | _ => none

/-- The string `JSON.stringify` compares against in the error check. -/
def emptyObjText : String := "\x7b\x7d"

/-- One step of the error-normalisation loop in `serializeLoggingEvent`
(lines 14–21): an item that is truthy, has a truthy `stack`, and stringifies
to `{}` is replaced by `{ stack: item.stack }`. -/
def rewriteItem (v : JsValue) : JsValue :=
  if truthy v && truthy (getProp v "stack") && (jsStringify v == some emptyObjText) then
    .obj [("stack", getProp v "stack")]
  else v

/-- The JSON object `JSON.stringify` builds for a logging event (fields in
the insertion order of the `LoggingEvent` constructor; the `level` field is
the level object with its numeric rank and name). -/
def eventToJson (e : LoggingEvent) : Json :=
  .obj [("startTime", .str (dateToJSON e.startTime)),
        ("categoryName", .str e.categoryName),
        ("data", .arr (e.data.map (fun v => (jsToJson v).getD .null))),
        ("level", .obj [("level", .num (levelValue e.level)),
                        ("levelStr", .str (levelStrOf e.level))])]

/-- `serializeLoggingEvent` (clustered.js lines 11–22): rewrite degenerate
error-like data items, then `JSON.stringify` the event. -/
def serializeLoggingEvent (e : LoggingEvent) : String :=
  renderJson (eventToJson { e with data := e.data.map rewriteItem })

/-- Property access with the host's failure behaviour made explicit:
reading a property of `undefined` or `null` throws a `TypeError`. -/
def getPropE (v : JsValue) (k : String) : Except String JsValue :=
  match v with
  | .undefined => .error "TypeError"
  | .null => .error "TypeError"
  | _ => .ok (getProp v k)

/-- One loop step of the encoder with every host failure path explicit: the
`item.stack` read is only reached when `item` is truthy (the `item &&` guard),
which is what makes the encoder total. -/
def rewriteItemE (v : JsValue) : Except String JsValue :=
  if truthy v then do
    let st ← getPropE v "stack"
    if truthy st && (jsStringify v == some emptyObjText) then
      pure (.obj [("stack", st)])
    else pure v
  else pure v

/-- `serializeLoggingEvent` with the host failure paths explicit. -/
def serializeLoggingEventE (e : LoggingEvent) : Except String String := do
  let data ← e.data.mapM rewriteItemE
  pure (renderJson (eventToJson { e with data := data }))

/-! ## The decoder (`deserializeLoggingEvent`) -/

/-- Provenance record attached by the coordinator (clustered.js lines
98–103): `{ master: process.pid, worker: worker.process.pid, workerId:
worker.id }`. -/
structure ClusterInfo where
  master : Int
  worker : Int
  workerId : Int
deriving Repr, DecidableEq

/-- A decoded logging event, after `deserializeLoggingEvent` has replaced
`startTime` by a `Date` (`none` = Invalid Date) and `level` by the level
object `toLevel` returned (`none` = JS `undefined`).  `categoryName` and
`data` are whatever the parsed JSON carried (mutated in the `data` loop);
`pid` and `cluster` are absent until the coordinator's message handler adds
them. -/
structure DecodedEvent where
  categoryName : JsValue
  startTime : Option Int
  level : Option Level
  data : JsValue
  pid : Option Int := none
  cluster : Option ClusterInfo := none
deriving Repr

/-- Named-property lookup on a parsed JSON value: only objects carry named
properties; on anything else the read yields `undefined` (`none`). -/
def jsonGet (j : Json) (k : String) : Option Json :=
  match j with
  | .obj fs => lookupLast fs k
  | _ => none

def jsonGetJs (j : Json) (k : String) : JsValue :=
  ((jsonGet j k).map jsOfJson).getD .undefined

/-- The decode-side unwrap step (clustered.js lines 45–48): any truthy item
with a truthy `stack` property is replaced by that `stack` value. -/
def unwrapItem (v : JsValue) : JsValue :=
  if truthy v && truthy (getProp v "stack") then getProp v "stack" else v

/-- The `try` body of `deserializeLoggingEvent` after a successful
`JSON.parse` (clustered.js lines 40–49); `none` models a thrown error, which
the `catch` turns into the fallback event:
* a parsed primitive throws at the strict-mode property assignment
  `loggingEvent.startTime = ...`; a parsed array survives it but throws at
  `loggingEvent.level.levelStr` since arrays have no `level` property;
* `loggingEvent.level.levelStr` throws iff `level` is absent or `null`;
* `loggingEvent.data.length` throws iff `data` is absent or `null`; a
  non-array, non-null `data` leaves the loop without iterations (its
  `length` reads `undefined`) or, for a string, without any rewrite, so it
  passes through unchanged.  (Objects carrying a numeric `length` field
  would iterate over digit-named properties in JS; that host corner is not
  modelled and is unreachable from the wire producer.) -/
def reconstructEvent (j : Json) : Option DecodedEvent :=
  match j with
  | .obj _ =>
    let startTime := jsNewDate (jsonGetJs j "startTime")
    match jsonGet j "level" with
    | none => none
    | some .null => none
    | some lv =>
      let level := toLevel (jsonGetJs lv "levelStr")
      match jsonGet j "data" with
      | none => none
      | some .null => none
      | some (.arr xs) =>
        some { categoryName := jsonGetJs j "categoryName",
               startTime := startTime,
               level := level,
               data := .arr ((jsOfJsonArr xs).map unwrapItem) }
      | some d =>
        some { categoryName := jsonGetJs j "categoryName",
               startTime := startTime,
               level := level,
               data := jsOfJson d }
  | _ => none

/-- The synthetic event built in the `catch` branch (clustered.js lines
51–57); `now` is the clock reading `new Date()` returns. -/
def fallbackEvent (now : Int) (s : String) : DecodedEvent :=
  { categoryName := .str "log4js",
    startTime := some now,
    level := some .ERROR,
    data := .arr [.str "Unable to parse log:", .str s] }

/-- `deserializeLoggingEvent` (clustered.js lines 36–60). -/
def deserializeLoggingEvent (now : Int) (s : String) : DecodedEvent :=
  match (parseJson s).bind reconstructEvent with
  | some ev => ev
  | none => fallbackEvent now s

/-! ## The coordinator aggregator (`masterAppender` and the message handler) -/

/-- One destination descriptor from `config.appenders`: only its optional
`category` filter matters to dispatch.  `none` is an absent (`undefined`)
filter; note `some ""` is a present but falsy filter. -/
structure AppenderCfg where
  category : Option String
deriving Repr, DecidableEq

/-- The configuration consumed by `createAppender`: descriptor list plus the
(possibly not yet installed) parallel list of instantiated destination
callables, which the model keeps opaque. -/
structure ClusteredConfig where
  appenders : List AppenderCfg
  actualAppenders : Option (List Unit)
deriving Repr, DecidableEq

/-- The dispatch test `!config.appenders[i].category ||
config.appenders[i].category === loggingEvent.categoryName`: an absent or
empty (falsy) filter passes everything; otherwise strict equality against
the event's category, which must be the same string. -/
def catMatches (c : Option String) (name : JsValue) : Bool :=
  match c with
  | none => true
  | some s => s == "" || name == JsValue.str s

/-- The `for` loop of `masterAppender` from index `i`, `k` iterations left:
the returned trace lists, in order, each invoked destination index with the
event it received; `none` models the `TypeError` thrown when
`config.appenders[i]` is `undefined` (shorter than `actualAppenders`). -/
def masterLoop (cfgs : List AppenderCfg) (ev : DecodedEvent) :
    Nat → Nat → Option (List (Nat × DecodedEvent))
  | _, 0 => some []
  | i, k + 1 =>
    match cfgs[i]? with
    | none => none
    | some a =>
      match masterLoop cfgs ev (i + 1) k with
      | none => none
      | some tr =>
        some (if catMatches a.category ev.categoryName then (i, ev) :: tr else tr)

/-- `masterAppender` (clustered.js lines 75–89), as the trace of destination
invocations it performs: `config.actualAppenders` absent short-circuits the
whole body. -/
def masterAppenderRun (cfg : ClusteredConfig) (ev : DecodedEvent) :
    Option (List (Nat × DecodedEvent)) :=
  match cfg.actualAppenders with
  | none => some []
  | some acts => masterLoop cfg.appenders ev 0 acts.length

/-- An inter-process channel message as the worker handler sees it: a tag
value and the encoded event payload. -/
structure WorkerMessage where
  msgType : JsValue
  event : String
deriving Repr

/-- The fixed sentinel tag for log-forwarding messages. -/
def logMessageTag : String := "::log-message"

/-- The per-worker message handler registered under `cluster.on('fork')`
(clustered.js lines 92–108): on a tagged message, decode, attach `pid` and
the `cluster` provenance record, and dispatch through `masterAppender`;
any other message is ignored (`none`). -/
def handleWorkerMessage (cfg : ClusteredConfig) (now : Int)
    (masterPid workerPid workerId : Int) (msg : WorkerMessage) :
    Option (DecodedEvent × Option (List (Nat × DecodedEvent))) :=
  if truthy msg.msgType && (msg.msgType == JsValue.str logMessageTag) then
    let ev0 := deserializeLoggingEvent now msg.event
    let ev := { ev0 with pid := some workerPid,
                         cluster := some ⟨masterPid, workerPid, workerId⟩ }
    some (ev, masterAppenderRun cfg ev)
  else none

/-! ## The worker forwarder -/

/-- The appender returned by `createAppender` in a non-master process
(clustered.js lines 113–119), as the list of channel sends it performs:
inside a worker, exactly one tagged message carrying the encoded event;
otherwise nothing. -/
def workerAppenderRun (isWorker : Bool) (e : LoggingEvent) : List WorkerMessage :=
  if isWorker then [⟨.str logMessageTag, serializeLoggingEvent e⟩] else []

/-- The process's role facts read from the host `cluster` module. -/
structure ClusterState where
  isMaster : Bool
  isWorker : Bool
deriving Repr, DecidableEq

/-- `createAppender` (clustered.js lines 74–120): a master receives the
fan-out appender, any other process the forwarder. -/
def createAppender (st : ClusterState) (cfg : ClusteredConfig) :
    Sum (DecodedEvent → Option (List (Nat × DecodedEvent)))
        (LoggingEvent → List WorkerMessage) :=
  if st.isMaster then .inl (masterAppenderRun cfg)
  else .inr (workerAppenderRun st.isWorker)

/-! ## Round-trip infrastructure: fuel measures and delimiter predicates -/

/-- `true` when the input is exhausted or starts with a digit-free
delimiter, so that number parsing cannot overrun. -/
def noDigitHead : List Char → Bool
  | [] => true
  | c :: _ => !c.isDigit

/-- `true` when the remaining input is empty or starts with one of the
delimiters that can follow a rendered value. -/
def delimOk : List Char → Bool
  | [] => true
  | c :: _ => c == ',' || c == ']' || c == '}'

mutual

/-- Fuel sufficient for `parseVal` to parse the rendering of `j`. -/
def jfuel : Json → Nat
  | .arr xs => 1 + jfuelArr xs
  | .obj fs => 1 + jfuelObj fs
  | _ => 1

/-- Fuel sufficient for `parseElems` on the rendering of a non-empty list. -/
def jfuelArr : List Json → Nat
  | [] => 0
  | [x] => 1 + jfuel x
  | x :: y :: ys => 1 + max (jfuel x) (jfuelArr (y :: ys))

/-- Fuel sufficient for `parseFields` on the rendering of a non-empty list. -/
def jfuelObj : List (String × Json) → Nat
  | [] => 0
  | [(_, v)] => 1 + jfuel v
  | (_, v) :: g :: gs => 1 + max (jfuel v) (jfuelObj (g :: gs))

end

/-- A `data` value in the sense of the round-trip property: it is preserved
exactly by JSON serialization (stringify then parse returns the same value)
and has no truthy `stack` property, so neither codec side rewrites it. -/
def serializerSafe (v : JsValue) : Bool :=
  (match jsToJson v with
   | some j => jsValueBEq (jsOfJson j) v
   | none => false) && !truthy (getProp v "stack")

/-! ## Lemmas: characters and decimal numerals -/

theorem skipWs_cons {c : Char} (cs : List Char) (h : isWsChar c = false) :
    skipWs (c :: cs) = c :: cs := by
  simp [skipWs, h]

theorem beq_false_of_isDigit_ne {c x : Char} (hc : c.isDigit = true)
    (hx : x.isDigit = false) : (c == x) = false := by
  cases h : c == x
  · rfl
  · cases eq_of_beq h
    rw [hc] at hx
    exact Bool.noConfusion hx

theorem isWsChar_false_of_isDigit {c : Char} (hc : c.isDigit = true) :
    isWsChar c = false := by
  simp only [isWsChar, decide_eq_false_iff_not]
  rintro (rfl | rfl | rfl | rfl) <;> exact absurd hc (by decide)

theorem digitChar_isDigit {n : Nat} (h : n < 10) : (Nat.digitChar n).isDigit = true := by
  interval_cases n <;> decide

theorem digitVal_digitChar {n : Nat} (h : n < 10) : digitVal (Nat.digitChar n) = n := by
  interval_cases n <;> decide

theorem natCharsAux_congr : ∀ f g n : Nat, n < f → n < g →
    natCharsAux f n = natCharsAux g n := by
  intro f
  induction f with
  | zero => intro g n h; omega
  | succ f ih =>
    intro g n hf hg
    cases g with
    | zero => omega
    | succ g =>
      simp only [natCharsAux]
      by_cases h10 : n < 10
      · simp [h10]
      · have hdiv : n / 10 < n := Nat.div_lt_self (by omega) (by omega)
        simp only [if_neg h10]
        rw [ih g (n / 10) (by omega) (by omega)]

theorem natChars_eq (n : Nat) :
    natChars n =
      if n < 10 then [Nat.digitChar n]
      else natChars (n / 10) ++ [Nat.digitChar (n % 10)] := by
  by_cases h : n < 10
  · simp [natChars, natCharsAux, h]
  · have h1 : natCharsAux (n + 1) n
        = natCharsAux n (n / 10) ++ [Nat.digitChar (n % 10)] := by
      show (if n < 10 then [Nat.digitChar n]
            else natCharsAux n (n / 10) ++ [Nat.digitChar (n % 10)]) = _
      rw [if_neg h]
    have hdiv : n / 10 < n := Nat.div_lt_self (by omega) (by omega)
    simp only [natChars, if_neg h, h1]
    rw [natCharsAux_congr n (n / 10 + 1) (n / 10) (by omega) (by omega)]

theorem natChars_ne_nil (n : Nat) : natChars n ≠ [] := by
  rw [natChars_eq]
  by_cases h : n < 10 <;> simp [h]

theorem natChars_digits (n : Nat) : ∀ c ∈ natChars n, c.isDigit = true := by
  induction n using Nat.strong_induction_on with
  | _ n ih =>
    rw [natChars_eq]
    by_cases h : n < 10
    · simp only [if_pos h, List.mem_singleton]
      rintro c rfl
      exact digitChar_isDigit h
    · have hdiv : n / 10 < n := Nat.div_lt_self (by omega) (by omega)
      simp only [if_neg h, List.mem_append, List.mem_singleton]
      rintro c (hc | rfl)
      · exact ih _ hdiv c hc
      · exact digitChar_isDigit (Nat.mod_lt _ (by omega))

theorem digitsToNat_natChars (n : Nat) : digitsToNat (natChars n) = n := by
  induction n using Nat.strong_induction_on with
  | _ n ih =>
    rw [natChars_eq]
    by_cases h : n < 10
    · simp [digitsToNat, h, digitVal_digitChar h]
    · have hdiv : n / 10 < n := Nat.div_lt_self (by omega) (by omega)
      have hmod : n % 10 < 10 := Nat.mod_lt _ (by omega)
      simp only [if_neg h, digitsToNat, List.foldl_append, List.foldl_cons, List.foldl_nil]
      have hrec := ih _ hdiv
      simp only [digitsToNat] at hrec
      rw [hrec, digitVal_digitChar hmod]
      omega

theorem takeDigits_append (ds rest : List Char)
    (hds : ∀ c ∈ ds, c.isDigit = true) (hr : noDigitHead rest = true) :
    takeDigits (ds ++ rest) = (ds, rest) := by
  induction ds with
  | nil =>
    simp only [List.nil_append]
    cases rest with
    | nil => rfl
    | cons c cs =>
      simp only [noDigitHead, Bool.not_eq_true'] at hr
      simp [takeDigits, hr]
  | cons c cs ih =>
    have hc : c.isDigit = true := hds c (by simp)
    simp only [List.cons_append, takeDigits, hc, if_true, List.append_eq]
    rw [ih (fun d hd => hds d (by simp [hd]))]

theorem parseNatTok_natChars (n : Nat) (rest : List Char)
    (hr : noDigitHead rest = true) :
    parseNatTok (natChars n ++ rest) = some (n, rest) := by
  unfold parseNatTok
  rw [takeDigits_append _ _ (natChars_digits n) hr]
  cases hn : natChars n with
  | nil => exact absurd hn (natChars_ne_nil n)
  | cons c cs =>
    show some (digitsToNat (c :: cs), rest) = some (n, rest)
    rw [← hn, digitsToNat_natChars]

theorem headIs_append_of_digits (m : Nat) (rest : List Char) {c : Char}
    (hc : c.isDigit = false) :
    headIs (natChars m ++ rest) c = false := by
  cases hn : natChars m with
  | nil => exact absurd hn (natChars_ne_nil m)
  | cons d ds =>
    have hd : d.isDigit = true := natChars_digits m d (by rw [hn]; simp)
    simp only [List.cons_append, headIs]
    exact beq_false_of_isDigit_ne hd hc

theorem parseIntTok_intChars (n : Int) (rest : List Char)
    (hr : noDigitHead rest = true) :
    parseIntTok (intChars n ++ rest) = some (n, rest) := by
  unfold intChars
  by_cases h : n < 0
  · simp only [if_pos h, List.cons_append]
    show (parseNatTok (natChars n.natAbs ++ rest)).map
        (fun p => (-(p.1 : Int), p.2)) = some (n, rest)
    rw [parseNatTok_natChars _ _ hr]
    simp only [Option.map_some']
    have : -((n.natAbs : Nat) : Int) = n := by omega
    rw [this]
  · simp only [if_neg h]
    unfold parseIntTok
    rw [if_neg]
    · rw [parseNatTok_natChars _ _ hr]
      simp only [Option.map_some']
      have hcast : ((n.toNat : Nat) : Int) = n := by omega
      rw [hcast]
    · rw [headIs_append_of_digits n.toNat rest (by decide)]
      exact Bool.false_ne_true

/-! ## Lemmas: string literals, delimiters, fuel -/

theorem parseStrBody_escList (l rest : List Char) :
    parseStrBody (escList l ++ '"' :: rest) = some (l, rest) := by
  induction l with
  | nil =>
    show parseStrBody ('"' :: rest) = some ([], rest)
    conv_lhs => rw [parseStrBody.eq_def]
    simp
  | cons c cs ih =>
    by_cases h : c = '"' ∨ c = '\\'
    · have hesc : escList (c :: cs) = '\\' :: c :: escList cs := by
        simp [escList, escChar, h]
      rw [hesc]
      rcases h with rfl | rfl
      · have hstep : parseStrBody ('\\' :: '"' :: (escList cs ++ '"' :: rest))
            = (parseStrBody (escList cs ++ '"' :: rest)).map
                (fun p => ('"' :: p.1, p.2)) := rfl
        simp only [List.cons_append, hstep, ih, Option.map_some']
      · have hstep : parseStrBody ('\\' :: '\\' :: (escList cs ++ '"' :: rest))
            = (parseStrBody (escList cs ++ '"' :: rest)).map
                (fun p => ('\\' :: p.1, p.2)) := rfl
        simp only [List.cons_append, hstep, ih, Option.map_some']
    · push_neg at h
      obtain ⟨h1, h2⟩ := h
      have hesc : escList (c :: cs) = c :: escList cs := by
        simp [escList, escChar, h1, h2]
      rw [hesc]
      have hc1 : (c == '"') = false := beq_eq_false_iff_ne.mpr h1
      have hc2 : (c == '\\') = false := beq_eq_false_iff_ne.mpr h2
      simp only [List.cons_append]
      conv_lhs => rw [parseStrBody.eq_def]
      simp [hc1, hc2, ih]

theorem delimOk_noDigitHead {rest : List Char} (h : delimOk rest = true) :
    noDigitHead rest = true := by
  cases rest with
  | nil => rfl
  | cons c t =>
    simp only [delimOk, Bool.or_eq_true, beq_iff_eq] at h
    rcases h with (rfl | rfl) | rfl <;> rfl

theorem jfuel_pos (j : Json) : 1 ≤ jfuel j := by
  cases j <;> simp only [jfuel] <;> omega

theorem jfuelArr_pos (x : Json) (xs : List Json) : 1 ≤ jfuelArr (x :: xs) := by
  cases xs <;> simp only [jfuelArr] <;> omega

theorem jfuelObj_pos (p : String × Json) (fs : List (String × Json)) :
    1 ≤ jfuelObj (p :: fs) := by
  obtain ⟨k, v⟩ := p
  cases fs with
  | nil => simp only [jfuelObj]; omega
  | cons g gs => obtain ⟨k2, v2⟩ := g; simp only [jfuelObj]; omega

/-- Every rendering starts with a character that is not whitespace and not a
closing bracket, so the surrounding parser treats it as the start of a value. -/
theorem render_head (j : Json) : ∃ c t, render j = c :: t ∧ isWsChar c = false ∧
    (c == ']') = false ∧ (c == '}') = false := by
  cases j with
  | null => exact ⟨'n', _, rfl, rfl, rfl, rfl⟩
  | bool b => cases b
              · exact ⟨'f', _, rfl, rfl, rfl, rfl⟩
              · exact ⟨'t', _, rfl, rfl, rfl, rfl⟩
  | num n =>
    show ∃ c t, intChars n = c :: t ∧ _
    unfold intChars
    by_cases h : n < 0
    · exact ⟨'-', _, by rw [if_pos h], rfl, rfl, rfl⟩
    · rw [if_neg h]
      cases hn : natChars n.toNat with
      | nil => exact absurd hn (natChars_ne_nil _)
      | cons d ds =>
        have hd : d.isDigit = true := natChars_digits _ d (by rw [hn]; simp)
        exact ⟨d, ds, rfl, isWsChar_false_of_isDigit hd,
          beq_false_of_isDigit_ne hd (by decide),
          beq_false_of_isDigit_ne hd (by decide)⟩
  | str s => exact ⟨'"', _, rfl, rfl, rfl, rfl⟩
  | arr xs => exact ⟨'[', _, rfl, rfl, rfl, rfl⟩
  | obj fs => exact ⟨'{', _, rfl, rfl, rfl, rfl⟩

/-! ## Step lemmas for the parser -/

theorem string_mk_data (s : String) : String.mk s.data = s := rfl

theorem parseVal_succ (f : Nat) {c : Char} (cs : List Char) (hws : isWsChar c = false) :
    parseVal (f + 1) (c :: cs) =
      if c.isDigit || c == '-' then
        (parseIntTok (c :: cs)).map (fun p => (Json.num p.1, p.2))
      else if c == '"' then
        (parseStrBody cs).map (fun p => (Json.str (String.mk p.1), p.2))
      else if c == '[' then
        (if headIs (skipWs cs) ']' then some (Json.arr [], (skipWs cs).tail)
         else (parseElems f (skipWs cs)).map (fun p => (Json.arr p.1, p.2)))
      else if c == '{' then
        (if headIs (skipWs cs) '}' then some (Json.obj [], (skipWs cs).tail)
         else (parseFields f (skipWs cs)).map (fun p => (Json.obj p.1, p.2)))
      else if c == 'n' then (dropLit ['u', 'l', 'l'] cs).map (fun r => (Json.null, r))
      else if c == 't' then (dropLit ['r', 'u', 'e'] cs).map (fun r => (Json.bool true, r))
      else if c == 'f' then (dropLit ['a', 'l', 's', 'e'] cs).map (fun r => (Json.bool false, r))
      else none := by
  conv_lhs => rw [parseVal.eq_def]
  simp only [skipWs_cons _ hws]

theorem parseVal_quote (f : Nat) (cs : List Char) :
    parseVal (f + 1) ('"' :: cs)
      = (parseStrBody cs).map (fun p => (Json.str (String.mk p.1), p.2)) := rfl

theorem parseVal_lbrack (f : Nat) (cs : List Char) :
    parseVal (f + 1) ('[' :: cs)
      = (if headIs (skipWs cs) ']' then some (Json.arr [], (skipWs cs).tail)
         else (parseElems f (skipWs cs)).map (fun p => (Json.arr p.1, p.2))) := rfl

theorem parseVal_lbrace (f : Nat) (cs : List Char) :
    parseVal (f + 1) ('{' :: cs)
      = (if headIs (skipWs cs) '}' then some (Json.obj [], (skipWs cs).tail)
         else (parseFields f (skipWs cs)).map (fun p => (Json.obj p.1, p.2))) := rfl

theorem intChars_head (n : Int) : ∃ c t, intChars n = c :: t ∧ isWsChar c = false ∧
    (c.isDigit || c == '-') = true := by
  unfold intChars
  by_cases h : n < 0
  · exact ⟨'-', _, by rw [if_pos h], rfl, rfl⟩
  · rw [if_neg h]
    cases hn : natChars n.toNat with
    | nil => exact absurd hn (natChars_ne_nil _)
    | cons d ds =>
      have hd : d.isDigit = true := natChars_digits _ d (by rw [hn]; simp)
      exact ⟨d, ds, rfl, isWsChar_false_of_isDigit hd, by simp [hd]⟩

theorem renderArr_cons (x : Json) (xs : List Json) :
    ∃ u, renderArr (x :: xs) = render x ++ u := by
  cases xs with
  | nil => exact ⟨[], (List.append_nil _).symm⟩
  | cons y ys => exact ⟨',' :: renderArr (y :: ys), rfl⟩

theorem renderObj_cons (k : String) (v : Json) (fs : List (String × Json)) :
    ∃ u, renderObj ((k, v) :: fs) = '"' :: (escList k.data ++ '"' :: ':' :: (render v ++ u)) := by
  cases fs with
  | nil =>
    refine ⟨[], ?_⟩
    simp [renderObj]
  | cons g gs =>
    obtain ⟨k2, v2⟩ := g
    refine ⟨',' :: renderObj ((k2, v2) :: gs), ?_⟩
    simp [renderObj]

theorem parseElems_step (f : Nat) (x : Json) (r cs : List Char)
    (h : parseVal f cs = some (x, r)) :
    parseElems (f + 1) cs
      = match skipWs r with
        | [] => none
        | c :: r2 =>
          if c == ',' then
            match parseElems f r2 with
            | none => none
            | some (xs, r3) => some (x :: xs, r3)
          else if c == ']' then some ([x], r2)
          else none := by
  simp only [parseElems, h]

theorem parseFields_step (f : Nat) (kcs X : List Char) :
    parseFields (f + 1) ('"' :: (escList kcs ++ '"' :: ':' :: X))
      = match parseVal f X with
        | none => none
        | some (v, r3) =>
          match skipWs r3 with
          | [] => none
          | e :: r4 =>
            if e == ',' then
              match parseFields f r4 with
              | none => none
              | some (fs, r5) => some ((String.mk kcs, v) :: fs, r5)
            else if e == '}' then some ([(String.mk kcs, v)], r4)
            else none := by
  simp only [parseFields]
  rw [skipWs_cons _ (by decide : isWsChar '"' = false)]
  simp only [parseStrBody_escList]
  rfl

/-! ## The parse-of-render round trip -/

theorem parse_render_master : ∀ f : Nat,
    (∀ j rest, jfuel j ≤ f → delimOk rest = true →
        parseVal f (render j ++ rest) = some (j, rest)) ∧
    (∀ x xs rest, jfuelArr (x :: xs) ≤ f → delimOk rest = true →
        parseElems f (renderArr (x :: xs) ++ ']' :: rest) = some (x :: xs, rest)) ∧
    (∀ p fs rest, jfuelObj (p :: fs) ≤ f → delimOk rest = true →
        parseFields f (renderObj (p :: fs) ++ '}' :: rest) = some (p :: fs, rest)) := by
  intro f
  induction f with
  | zero =>
    refine ⟨fun j rest hf _ => absurd hf ?_, fun x xs rest hf _ => absurd hf ?_,
      fun p fs rest hf _ => absurd hf ?_⟩
    · have := jfuel_pos j; omega
    · have := jfuelArr_pos x xs; omega
    · have := jfuelObj_pos p fs; omega
  | succ f ih =>
    obtain ⟨IH1, IH2, IH3⟩ := ih
    refine ⟨?_, ?_, ?_⟩
    · intro j rest hf hr
      cases j with
      | null => rfl
      | bool b => cases b <;> rfl
      | num n =>
        have hnd := delimOk_noDigitHead hr
        obtain ⟨c, t, hct, hws, hd⟩ := intChars_head n
        show parseVal (f + 1) (intChars n ++ rest) = some (Json.num n, rest)
        rw [hct, List.cons_append, parseVal_succ f _ hws, if_pos hd, ← List.cons_append,
          ← hct, parseIntTok_intChars n rest hnd]
        rfl
      | str s =>
        show parseVal (f + 1) ('"' :: ((escList s.data ++ ['"']) ++ rest))
            = some (Json.str s, rest)
        rw [List.append_assoc, List.singleton_append, parseVal_quote,
          parseStrBody_escList]
        simp [string_mk_data]
      | arr xs =>
        cases xs with
        | nil => rfl
        | cons x xs' =>
          have hfa : jfuelArr (x :: xs') ≤ f := by
            simp only [jfuel] at hf; omega
          obtain ⟨c, t, hcx, hws, hbr, _⟩ := render_head x
          obtain ⟨u, hu⟩ := renderArr_cons x xs'
          have hshape : renderArr (x :: xs') ++ ']' :: rest
              = c :: (t ++ (u ++ ']' :: rest)) := by
            rw [hu, hcx]
            simp [List.append_assoc]
          have hskip : skipWs (renderArr (x :: xs') ++ ']' :: rest)
              = renderArr (x :: xs') ++ ']' :: rest := by
            rw [hshape]; exact skipWs_cons _ hws
          have hhead : headIs (skipWs (renderArr (x :: xs') ++ ']' :: rest)) ']' = false := by
            rw [hskip, hshape]
            simp only [headIs]
            exact hbr
          show parseVal (f + 1) ('[' :: ((renderArr (x :: xs') ++ [']']) ++ rest))
              = some (Json.arr (x :: xs'), rest)
          rw [List.append_assoc, List.singleton_append, parseVal_lbrack,
            if_neg (by rw [hhead]; exact Bool.false_ne_true), hskip,
            IH2 x xs' rest hfa hr]
          rfl
      | obj fs =>
        cases fs with
        | nil => rfl
        | cons p fs' =>
          have hfo : jfuelObj (p :: fs') ≤ f := by
            simp only [jfuel] at hf; omega
          obtain ⟨k, v⟩ := p
          obtain ⟨u, hu⟩ := renderObj_cons k v fs'
          have hshape : renderObj ((k, v) :: fs') ++ '}' :: rest
              = '"' :: (escList k.data ++ '"' :: ':' :: (render v ++ u) ++ '}' :: rest) := by
            rw [hu]
            simp [List.append_assoc]
          have hskip : skipWs (renderObj ((k, v) :: fs') ++ '}' :: rest)
              = renderObj ((k, v) :: fs') ++ '}' :: rest := by
            rw [hshape]; exact skipWs_cons _ (by decide)
          have hhead : headIs (skipWs (renderObj ((k, v) :: fs') ++ '}' :: rest)) '}' = false := by
            rw [hskip, hshape]
            simp only [headIs]
            decide
          show parseVal (f + 1) ('{' :: ((renderObj ((k, v) :: fs') ++ ['}']) ++ rest))
              = some (Json.obj ((k, v) :: fs'), rest)
          rw [List.append_assoc, List.singleton_append, parseVal_lbrace,
            if_neg (by rw [hhead]; exact Bool.false_ne_true), hskip,
            IH3 (k, v) fs' rest hfo hr]
          rfl
    · intro x xs rest hf hr
      cases xs with
      | nil =>
        have hfx : jfuel x ≤ f := by simp only [jfuelArr] at hf; omega
        have h1 := IH1 x (']' :: rest) hfx (by rfl)
        show parseElems (f + 1) (render x ++ ']' :: rest) = some ([x], rest)
        rw [parseElems_step f x (']' :: rest) _ h1]
        rfl
      | cons y ys =>
        have hfx : jfuel x ≤ f := by simp only [jfuelArr] at hf; omega
        have hfa : jfuelArr (y :: ys) ≤ f := by simp only [jfuelArr] at hf; omega
        have h1 := IH1 x (',' :: (renderArr (y :: ys) ++ ']' :: rest)) hfx (by rfl)
        have h2 := IH2 y ys rest hfa hr
        show parseElems (f + 1)
            ((render x ++ ',' :: renderArr (y :: ys)) ++ ']' :: rest)
            = some (x :: y :: ys, rest)
        rw [List.append_assoc, List.cons_append,
          parseElems_step f x (',' :: (renderArr (y :: ys) ++ ']' :: rest)) _ h1]
        show (match parseElems f (renderArr (y :: ys) ++ ']' :: rest) with
              | none => none
              | some (xs, r3) => some (x :: xs, r3)) = some (x :: y :: ys, rest)
        rw [h2]
    · intro p fs rest hf hr
      obtain ⟨k, v⟩ := p
      cases fs with
      | nil =>
        have hfv : jfuel v ≤ f := by simp only [jfuelObj] at hf; omega
        have h1 := IH1 v ('}' :: rest) hfv (by rfl)
        show parseFields (f + 1)
            ('"' :: (escList k.data ++ '"' :: ':' :: render v) ++ '}' :: rest)
            = some ([(k, v)], rest)
        rw [List.cons_append, List.append_assoc]
        show parseFields (f + 1)
            ('"' :: (escList k.data ++ '"' :: ':' :: (render v ++ '}' :: rest)))
            = some ([(k, v)], rest)
        rw [parseFields_step f k.data (render v ++ '}' :: rest), h1]
        show (if ('}' == ',') = true then _
              else if ('}' == '}') = true then some ([(String.mk k.data, v)], rest)
              else none) = some ([(k, v)], rest)
        rw [if_neg (by decide), if_pos (by decide), string_mk_data]
      | cons g gs =>
        obtain ⟨k2, v2⟩ := g
        have hfv : jfuel v ≤ f := by simp only [jfuelObj] at hf; omega
        have hfo : jfuelObj ((k2, v2) :: gs) ≤ f := by
          simp only [jfuelObj] at hf; omega
        have h1 := IH1 v (',' :: (renderObj ((k2, v2) :: gs) ++ '}' :: rest)) hfv (by rfl)
        have h2 := IH3 (k2, v2) gs rest hfo hr
        show parseFields (f + 1)
            ((('"' :: (escList k.data ++ '"' :: ':' :: render v))
              ++ ',' :: renderObj ((k2, v2) :: gs)) ++ '}' :: rest)
            = some ((k, v) :: (k2, v2) :: gs, rest)
        rw [List.append_assoc, List.cons_append, List.cons_append, List.append_assoc]
        show parseFields (f + 1)
            ('"' :: (escList k.data ++ '"' :: ':'
              :: (render v ++ ',' :: (renderObj ((k2, v2) :: gs) ++ '}' :: rest))))
            = some ((k, v) :: (k2, v2) :: gs, rest)
        rw [parseFields_step f k.data
          (render v ++ ',' :: (renderObj ((k2, v2) :: gs) ++ '}' :: rest)), h1]
        show (if (',' == ',') = true then
                match parseFields f (renderObj ((k2, v2) :: gs) ++ '}' :: rest) with
                | none => none
                | some (fs, r5) => some ((String.mk k.data, v) :: fs, r5)
              else if (',' == '}') = true then some ([(String.mk k.data, v)], _)
              else none) = some ((k, v) :: (k2, v2) :: gs, rest)
        rw [if_pos (by decide), h2, string_mk_data]

mutual

theorem jfuel_le_render : ∀ j : Json, jfuel j ≤ (render j).length
  | .null => by simp [jfuel, render]
  | .bool b => by cases b <;> simp [jfuel, render]
  | .num n => by
    have h : intChars n ≠ [] := by
      unfold intChars
      by_cases hn : n < 0
      · simp [hn]
      · simp [hn, natChars_ne_nil]
    have := List.length_pos.mpr h
    simp only [jfuel, render]
    omega
  | .str s => by simp [jfuel, render]
  | .arr xs => by
    have h := jfuelArr_le_render xs
    simp only [jfuel, render, List.length_cons, List.length_append]
    simp only [List.length_singleton] at *
    omega
  | .obj fs => by
    have h := jfuelObj_le_render fs
    simp only [jfuel, render, List.length_cons, List.length_append]
    simp only [List.length_singleton] at *
    omega

theorem jfuelArr_le_render : ∀ xs : List Json,
    jfuelArr xs ≤ 1 + (renderArr xs).length
  | [] => by simp [jfuelArr, renderArr]
  | [x] => by
    have h := jfuel_le_render x
    simp only [jfuelArr, renderArr]
    omega
  | x :: y :: ys => by
    have h1 := jfuel_le_render x
    have h2 := jfuelArr_le_render (y :: ys)
    simp only [jfuelArr, renderArr, List.length_append, List.length_cons]
    omega

theorem jfuelObj_le_render : ∀ fs : List (String × Json),
    jfuelObj fs ≤ 1 + (renderObj fs).length
  | [] => by simp [jfuelObj, renderObj]
  | [(k, v)] => by
    have h := jfuel_le_render v
    simp only [jfuelObj, renderObj, List.length_cons, List.length_append]
    omega
  | (k, v) :: g :: gs => by
    have h1 := jfuel_le_render v
    have h2 := jfuelObj_le_render (g :: gs)
    simp only [jfuelObj, renderObj, List.length_append, List.length_cons]
    omega

end

/-- `JSON.parse` inverts `JSON.stringify` on the JSON AST. -/
theorem parseJson_renderJson (j : Json) : parseJson (renderJson j) = some j := by
  have hlen : (renderJson j).length = (render j).length := rfl
  have hdata : (renderJson j).data = render j := rfl
  have hfuel : jfuel j ≤ (render j).length + 1 := by
    have := jfuel_le_render j; omega
  have hmain := (parse_render_master ((render j).length + 1)).1 j [] hfuel (by rfl)
  rw [List.append_nil] at hmain
  unfold parseJson
  rw [hlen, hdata, hmain]
  rfl

/-! ## Codec lemmas -/

theorem toLevel_levelStr (l : Level) : toLevel (.str (levelStrOf l)) = some l := by
  cases l <;> rfl

theorem jsNewDate_dateToJSON (t : Int) : jsNewDate (.str (dateToJSON t)) = some t := by
  show parseDateString (dateToJSON t) = some t
  unfold parseDateString dateToJSON
  have hd : (String.mk (intChars t)).data = intChars t := rfl
  rw [hd]
  have h := parseIntTok_intChars t [] (by rfl)
  rw [List.append_nil] at h
  rw [h]

mutual

theorem jsValueBEq_sound : ∀ a b : JsValue, jsValueBEq a b = true → a = b
  | .undefined, b, h => by cases b <;> simp_all [jsValueBEq]
  | .null, b, h => by cases b <;> simp_all [jsValueBEq]
  | .bool a, b, h => by cases b <;> simp_all [jsValueBEq]
  | .num a, b, h => by cases b <;> simp_all [jsValueBEq]
  | .str a, b, h => by cases b <;> simp_all [jsValueBEq]
  | .func, b, h => by cases b <;> simp_all [jsValueBEq]
  | .arr xs, b, h => by
    cases b <;> simp_all [jsValueBEq]
    exact jsListBEq_sound xs _ h
  | .obj fs, b, h => by
    cases b <;> simp_all [jsValueBEq]
    exact jsFieldsBEq_sound fs _ h
  | .error st fs, b, h => by
    cases b <;> simp_all [jsValueBEq]
    exact jsFieldsBEq_sound fs _ h.2

theorem jsListBEq_sound : ∀ a b : List JsValue, jsListBEq a b = true → a = b
  | [], b, h => by cases b <;> simp_all [jsListBEq]
  | x :: xs, b, h => by
    cases b with
    | nil => simp_all [jsListBEq]
    | cons y ys =>
      simp only [jsListBEq, Bool.and_eq_true] at h
      rw [jsValueBEq_sound x y h.1, jsListBEq_sound xs ys h.2]

theorem jsFieldsBEq_sound : ∀ a b : List (String × JsValue), jsFieldsBEq a b = true → a = b
  | [], b, h => by cases b <;> simp_all [jsFieldsBEq]
  | (k, x) :: xs, b, h => by
    cases b with
    | nil => simp_all [jsFieldsBEq]
    | cons p ys =>
      obtain ⟨l, y⟩ := p
      simp only [jsFieldsBEq, Bool.and_eq_true] at h
      obtain ⟨⟨hk, hv⟩, ht⟩ := h
      rw [eq_of_beq hk, jsValueBEq_sound x y hv, jsFieldsBEq_sound xs ys ht]

end

theorem serializerSafe_spec {v : JsValue} (h : serializerSafe v = true) :
    (∃ j, jsToJson v = some j ∧ jsOfJson j = v) ∧ truthy (getProp v "stack") = false := by
  unfold serializerSafe at h
  rw [Bool.and_eq_true] at h
  obtain ⟨h1, h2⟩ := h
  refine ⟨?_, by simpa using h2⟩
  cases hj : jsToJson v with
  | none => rw [hj] at h1; exact absurd h1 (by simp)
  | some j =>
    rw [hj] at h1
    exact ⟨j, rfl, jsValueBEq_sound _ _ h1⟩

theorem jsOfJsonArr_eq_map (xs : List Json) : jsOfJsonArr xs = xs.map jsOfJson := by
  induction xs with
  | nil => rfl
  | cons x xs ih => simp [jsOfJsonArr, ih]

/-- `deserializeLoggingEvent` applied to the `JSON.parse` of `eventToJson`:
the decode body on a well-formed event object. -/
theorem reconstruct_eventToJson (e : LoggingEvent) :
    reconstructEvent (eventToJson e) =
      some { categoryName := .str e.categoryName,
             startTime := some e.startTime,
             level := some e.level,
             data := .arr ((jsOfJsonArr (e.data.map
                 (fun v => (jsToJson v).getD .null))).map unwrapItem),
             pid := none, cluster := none } := by
  have hdate := jsNewDate_dateToJSON e.startTime
  have hlvl := toLevel_levelStr e.level
  show some ({ categoryName := .str e.categoryName,
               startTime := jsNewDate (.str (dateToJSON e.startTime)),
               level := toLevel (.str (levelStrOf e.level)),
               data := .arr ((jsOfJsonArr (e.data.map
                   (fun v => (jsToJson v).getD .null))).map unwrapItem),
               pid := none, cluster := none } : DecodedEvent)
      = some { categoryName := .str e.categoryName,
               startTime := some e.startTime,
               level := some e.level,
               data := .arr ((jsOfJsonArr (e.data.map
                   (fun v => (jsToJson v).getD .null))).map unwrapItem),
               pid := none, cluster := none }
  rw [hdate, hlvl]

/-- Decoding an encoded event: the full pipeline through the JSON layer. -/
theorem deserialize_serialize (now : Int) (e : LoggingEvent) :
    deserializeLoggingEvent now (serializeLoggingEvent e)
      = { categoryName := .str e.categoryName,
          startTime := some e.startTime,
          level := some e.level,
          data := .arr ((jsOfJsonArr ((e.data.map rewriteItem).map
              (fun v => (jsToJson v).getD .null))).map unwrapItem),
          pid := none, cluster := none } := by
  unfold deserializeLoggingEvent serializeLoggingEvent
  rw [parseJson_renderJson]
  show (match reconstructEvent (eventToJson { e with data := e.data.map rewriteItem }) with
        | some ev => ev
        | none => fallbackEvent now (renderJson (eventToJson { e with data := e.data.map rewriteItem })))
      = _
  rw [reconstruct_eventToJson { e with data := e.data.map rewriteItem }]

/-! ## Aggregator lemmas -/

theorem truthy_of_getProp_str {v : JsValue} {S : String}
    (h : getProp v "stack" = .str S) : truthy v = true := by
  cases v <;> first | rfl | simp [getProp] at h

/-- The dispatch loop from index `i` with `k` iterations left, when every
index it touches is in range: it invokes, in index order, exactly the
destinations whose filter passes. -/
theorem masterLoop_spec (cfgs : List AppenderCfg) (ev : DecodedEvent) :
    ∀ (k i : Nat), i + k ≤ cfgs.length →
      masterLoop cfgs ev i k
        = some (((List.range' i k).filter
            (fun n => match cfgs[n]? with
                      | some a => catMatches a.category ev.categoryName
                      | none => false)).map (fun n => (n, ev))) := by
  intro k
  induction k with
  | zero => intro i _; rfl
  | succ k ih =>
    intro i h
    have hi : i < cfgs.length := by omega
    obtain ⟨a, ha⟩ : ∃ a, cfgs[i]? = some a :=
      ⟨cfgs[i], List.getElem?_eq_getElem hi⟩
    simp only [masterLoop]
    rw [ha, ih (i + 1) (by omega)]
    have hrange : List.range' i (k + 1) = i :: List.range' (i + 1) k := rfl
    rw [hrange]
    cases hmatch : catMatches a.category ev.categoryName with
    | false => simp [List.filter_cons, ha, hmatch]
    | true => simp [List.filter_cons, ha, hmatch]

/-- Every invocation the dispatch loop records carries the event unchanged. -/
theorem masterLoop_event_inv (cfgs : List AppenderCfg) (ev : DecodedEvent) :
    ∀ (k i : Nat) (tr : List (Nat × DecodedEvent)),
      masterLoop cfgs ev i k = some tr → ∀ p ∈ tr, p.2 = ev := by
  intro k
  induction k with
  | zero =>
    intro i tr h p hp
    simp only [masterLoop, Option.some_inj] at h
    subst h
    simp at hp
  | succ k ih =>
    intro i tr h p hp
    simp only [masterLoop] at h
    cases hg : cfgs[i]? with
    | none => rw [hg] at h; exact absurd h (by simp)
    | some a =>
      rw [hg] at h
      cases hm : masterLoop cfgs ev (i + 1) k with
      | none => rw [hm] at h; exact absurd h (by simp)
      | some tr' =>
        rw [hm] at h
        simp only [Option.some_inj] at h
        subst h
        by_cases hc : catMatches a.category ev.categoryName = true
        · rw [if_pos hc] at hp
          rcases List.mem_cons.mp hp with rfl | hp'
          · rfl
          · exact ih (i + 1) tr' hm p hp'
        · rw [if_neg hc] at hp
          exact ih (i + 1) tr' hm p hp

theorem getPropE_of_truthy {v : JsValue} (h : truthy v = true) (k : String) :
    getPropE v k = .ok (getProp v k) := by
  cases v <;> first | rfl | simp [truthy] at h

theorem rewriteItemE_ok (v : JsValue) : rewriteItemE v = .ok (rewriteItem v) := by
  unfold rewriteItemE rewriteItem
  cases htv : truthy v with
  | false =>
    rw [if_neg (by simp), if_neg (by simp)]
    rfl
  | true =>
    rw [if_pos (rfl : true = true), getPropE_of_truthy htv]
    show (if (truthy (getProp v "stack") && (jsStringify v == some emptyObjText)) = true
          then (pure (JsValue.obj [("stack", getProp v "stack")]) : Except String JsValue)
          else pure v)
        = Except.ok (if (true && truthy (getProp v "stack")
              && (jsStringify v == some emptyObjText)) = true
          then JsValue.obj [("stack", getProp v "stack")] else v)
    rw [Bool.true_and]
    cases truthy (getProp v "stack") && (jsStringify v == some emptyObjText) <;> rfl

theorem mapM_rewriteItemE (l : List JsValue) :
    l.mapM rewriteItemE = Except.ok (l.map rewriteItem) := by
  induction l with
  | nil => rfl
  | cons v vs ih =>
    simp only [List.mapM_cons, rewriteItemE_ok, ih, List.map_cons]
    rfl

/-! ## Claim theorems -/

/-- C1: for every LoggingEvent whose `data` contains only serializer-safe
values (preserved exactly by JSON serialization and with no truthy `stack`
property), `deserializeLoggingEvent (serializeLoggingEvent e)` reproduces
`categoryName` exactly, the level (hence its `levelStr` name), `startTime`
as the same millisecond instant, and `data` element-wise. -/
theorem claim_roundtrip (now : Int) (e : LoggingEvent)
    (h : ∀ v ∈ e.data, serializerSafe v = true) :
    (deserializeLoggingEvent now (serializeLoggingEvent e)).categoryName
        = .str e.categoryName ∧
    (deserializeLoggingEvent now (serializeLoggingEvent e)).level = some e.level ∧
    (deserializeLoggingEvent now (serializeLoggingEvent e)).startTime
        = some e.startTime ∧
    (deserializeLoggingEvent now (serializeLoggingEvent e)).data = .arr e.data := by
  rw [deserialize_serialize]
  refine ⟨rfl, rfl, rfl, ?_⟩
  show JsValue.arr _ = JsValue.arr e.data
  congr 1
  rw [jsOfJsonArr_eq_map]
  simp only [List.map_map]
  refine (List.map_congr_left ?_).trans (List.map_id _)
  intro v hv
  obtain ⟨⟨j, hj, hji⟩, hstack⟩ := serializerSafe_spec (h v hv)
  have hrw : rewriteItem v = v := by
    unfold rewriteItem
    rw [hstack]
    simp
  have hunwrap : unwrapItem v = v := by
    unfold unwrapItem
    rw [hstack]
    simp
  simp only [Function.comp_apply, id_eq, hrw, hj, Option.getD_some, hji, hunwrap]

theorem claim_roundtrip_witness :
    (∀ v ∈ ([JsValue.str "hello", JsValue.num 42] : List JsValue),
        serializerSafe v = true) ∧
    ((deserializeLoggingEvent 7 (serializeLoggingEvent
        ⟨"cat", 3, Level.INFO, [.str "hello", .num 42]⟩)).categoryName
        = .str "cat" ∧
     (deserializeLoggingEvent 7 (serializeLoggingEvent
        ⟨"cat", 3, Level.INFO, [.str "hello", .num 42]⟩)).level = some Level.INFO ∧
     (deserializeLoggingEvent 7 (serializeLoggingEvent
        ⟨"cat", 3, Level.INFO, [.str "hello", .num 42]⟩)).startTime = some 3 ∧
     (deserializeLoggingEvent 7 (serializeLoggingEvent
        ⟨"cat", 3, Level.INFO, [.str "hello", .num 42]⟩)).data
        = .arr [.str "hello", .num 42]) :=
  ⟨by intro v hv
      rcases List.mem_cons.mp hv with rfl | hv
      · rfl
      · rcases List.mem_cons.mp hv with rfl | hv
        · rfl
        · simp at hv,
   claim_roundtrip 7 ⟨"cat", 3, Level.INFO, [.str "hello", .num 42]⟩
      (by intro v hv
          rcases List.mem_cons.mp hv with rfl | hv
          · rfl
          · rcases List.mem_cons.mp hv with rfl | hv
            · rfl
            · simp at hv)⟩

/-- C2: an event whose `data` holds, at position `i`, a value with a
non-empty `stack` string whose `JSON.stringify` form is the empty object
text decodes, after the encode/decode round trip, to the stack string itself
at position `i`. -/
theorem claim_error_normalization (now : Int) (e : LoggingEvent) (i : Nat)
    (v : JsValue) (S : String)
    (hv : e.data[i]? = some v)
    (hstack : getProp v "stack" = .str S)
    (hS : S ≠ "")
    (hempty : jsStringify v = some emptyObjText) :
    ∃ xs, (deserializeLoggingEvent now (serializeLoggingEvent e)).data = .arr xs
      ∧ xs[i]? = some (.str S) := by
  rw [deserialize_serialize]
  refine ⟨_, rfl, ?_⟩
  rw [jsOfJsonArr_eq_map]
  simp only [List.map_map, List.getElem?_map, hv, Option.map_some']
  have htr : truthy v = true := truthy_of_getProp_str hstack
  have hSb : truthy (JsValue.str S) = true := by
    simp [truthy, hS]
  have hrw : rewriteItem v = .obj [("stack", .str S)] := by
    unfold rewriteItem
    rw [hstack, hempty, htr, hSb]
    simp
  simp only [Function.comp_apply, hrw]
  show some (unwrapItem (jsOfJson (Json.obj [("stack", Json.str S)]))) = _
  unfold unwrapItem
  have hgp : getProp (jsOfJson (Json.obj [("stack", Json.str S)])) "stack"
      = .str S := rfl
  rw [hgp, hSb]
  rfl

theorem claim_error_normalization_witness :
    (getProp (.error "trace" []) "stack" = JsValue.str "trace" ∧
     ("trace" : String) ≠ "" ∧
     jsStringify (.error "trace" []) = some emptyObjText) ∧
    (∃ xs, (deserializeLoggingEvent 9 (serializeLoggingEvent
        ⟨"app", 4, Level.ERROR, [.error "trace" []]⟩)).data = .arr xs
      ∧ xs[0]? = some (.str "trace")) :=
  ⟨⟨rfl, by decide, rfl⟩,
   claim_error_normalization 9 ⟨"app", 4, Level.ERROR, [.error "trace" []]⟩ 0
     (.error "trace" []) "trace" rfl rfl (by decide) rfl⟩

/-- C3: on any input string the JSON layer cannot parse,
`deserializeLoggingEvent` does not fail: it returns the synthetic fallback
event with category `"log4js"`, level ERROR, the current time as
`startTime`, and `data` = the fixed notice string followed by the raw
input. -/
theorem claim_malformed_fallback (now : Int) (s : String)
    (h : parseJson s = none) :
    deserializeLoggingEvent now s = fallbackEvent now s ∧
    (deserializeLoggingEvent now s).categoryName = .str "log4js" ∧
    (deserializeLoggingEvent now s).level = some Level.ERROR ∧
    (deserializeLoggingEvent now s).startTime = some now ∧
    (deserializeLoggingEvent now s).data
        = .arr [.str "Unable to parse log:", .str s] := by
  have hd : deserializeLoggingEvent now s = fallbackEvent now s := by
    unfold deserializeLoggingEvent
    rw [h]
    rfl
  exact ⟨hd, by rw [hd]; rfl, by rw [hd]; rfl, by rw [hd]; rfl, by rw [hd]; rfl⟩

theorem claim_malformed_fallback_witness :
    parseJson "not valid transport text" = none ∧
    (deserializeLoggingEvent 11 "not valid transport text"
        = fallbackEvent 11 "not valid transport text" ∧
     (deserializeLoggingEvent 11 "not valid transport text").categoryName
        = .str "log4js" ∧
     (deserializeLoggingEvent 11 "not valid transport text").level
        = some Level.ERROR ∧
     (deserializeLoggingEvent 11 "not valid transport text").startTime = some 11 ∧
     (deserializeLoggingEvent 11 "not valid transport text").data
        = .arr [.str "Unable to parse log:", .str "not valid transport text"]) :=
  ⟨rfl, claim_malformed_fallback 11 "not valid transport text" rfl⟩

/-- C10: `deserializeLoggingEvent` is total: whenever the reconstruction of
the parsed value fails — because parsing failed, or because the parsed JSON
does not have the shape of a logging event (a primitive, an array, a missing
or null `level`, a missing or null `data`) — the decoder returns the
synthetic fallback event rather than failing. -/
theorem claim_decode_total (now : Int) (s : String)
    (h : (parseJson s).bind reconstructEvent = none) :
    deserializeLoggingEvent now s = fallbackEvent now s ∧
    (deserializeLoggingEvent now s).categoryName = .str "log4js" ∧
    (deserializeLoggingEvent now s).level = some Level.ERROR ∧
    (deserializeLoggingEvent now s).startTime = some now ∧
    (deserializeLoggingEvent now s).data
        = .arr [.str "Unable to parse log:", .str s] := by
  have hd : deserializeLoggingEvent now s = fallbackEvent now s := by
    unfold deserializeLoggingEvent
    rw [h]
  exact ⟨hd, by rw [hd]; rfl, by rw [hd]; rfl, by rw [hd]; rfl, by rw [hd]; rfl⟩

theorem claim_decode_total_witness :
    (parseJson "5" = some (Json.num 5) ∧
     (parseJson "5").bind reconstructEvent = none) ∧
    (deserializeLoggingEvent 13 "5" = fallbackEvent 13 "5" ∧
     (deserializeLoggingEvent 13 "5").categoryName = .str "log4js" ∧
     (deserializeLoggingEvent 13 "5").level = some Level.ERROR ∧
     (deserializeLoggingEvent 13 "5").startTime = some 13 ∧
     (deserializeLoggingEvent 13 "5").data
        = .arr [.str "Unable to parse log:", .str "5"]) :=
  ⟨⟨rfl, rfl⟩, claim_decode_total 13 "5" rfl⟩

/-- C4 (counterexample): a destination whose category filter is present but
empty — a set filter that differs from the event's category `"B"` — is
nevertheless invoked, because the dispatch test `!category` treats the empty
string as falsy.  This contradicts "invokes destination i if and only if its
filter is unset or string-equal to the event's category". -/
theorem claim_category_filter_cex :
    masterAppenderRun ⟨[⟨some ""⟩], some [()]⟩
        { categoryName := .str "B", startTime := none, level := none, data := .null }
      = some [(0, { categoryName := .str "B", startTime := none, level := none,
                    data := .null })] ∧
    (some "" : Option String) ≠ none ∧ ("" : String) ≠ "B" :=
  ⟨rfl, by simp, by decide⟩

/-- C4 (amended): with a configured destination list (filters paired with
the instantiated destination callables, index-aligned), `masterAppender`
invokes the destinations in configuration order, and invokes destination `i`
exactly when its filter is absent, empty (falsy), or strictly equal to the
event's `categoryName`. -/
theorem claim_category_filter_amended (cfg : ClusteredConfig) (ev : DecodedEvent)
    (acts : List Unit) (hc : cfg.actualAppenders = some acts)
    (hlen : acts.length = cfg.appenders.length) :
    masterAppenderRun cfg ev
      = some (((List.range cfg.appenders.length).filter
          (fun n => match cfg.appenders[n]? with
                    | some a => catMatches a.category ev.categoryName
                    | none => false)).map (fun n => (n, ev))) := by
  unfold masterAppenderRun
  rw [hc]
  show masterLoop cfg.appenders ev 0 acts.length = _
  rw [hlen, masterLoop_spec cfg.appenders ev cfg.appenders.length 0 (by omega),
    List.range_eq_range']

theorem claim_category_filter_witness :
    ((⟨[⟨some "A"⟩, ⟨none⟩], some [(), ()]⟩ : ClusteredConfig).actualAppenders
        = some [(), ()] ∧
     ([(), ()] : List Unit).length
        = (⟨[⟨some "A"⟩, ⟨none⟩], some [(), ()]⟩ : ClusteredConfig).appenders.length) ∧
    masterAppenderRun ⟨[⟨some "A"⟩, ⟨none⟩], some [(), ()]⟩
        { categoryName := .str "A", startTime := none, level := none, data := .null }
      = some [(0, { categoryName := .str "A", startTime := none, level := none,
                    data := .null }),
              (1, { categoryName := .str "A", startTime := none, level := none,
                    data := .null })] :=
  ⟨⟨rfl, rfl⟩, by
    rw [claim_category_filter_amended ⟨[⟨some "A"⟩, ⟨none⟩], some [(), ()]⟩
      { categoryName := .str "A", startTime := none, level := none, data := .null }
      [(), ()] rfl rfl]
    rfl⟩

/-- C5: `serializeLoggingEvent` has no failure path over the embedded value
domain.  `serializeLoggingEventE` makes every throwing host primitive
explicit (property reads on `undefined`/`null`); the encoder always returns
normally because the `item &&` guard protects the only such read, and the
underlying serializer handles unencodable values (`undefined`, functions)
lossily rather than by raising. -/
theorem claim_encode_total (e : LoggingEvent) :
    serializeLoggingEventE e = Except.ok (serializeLoggingEvent e) := by
  unfold serializeLoggingEventE serializeLoggingEvent
  rw [mapM_rewriteItemE]
  rfl

/-- C6 (counterexample): a `data` element that is a rich object with a
non-empty `stack` field among other fields — not a record containing only a
stack string, and not rewritten by the encoder since its serialization is
not the empty object — is nevertheless collapsed to its stack string by the
decoder.  This contradicts "data elements that are richer objects merely
possessing a stack-trace field among other fields are not collapsed". -/
theorem claim_decode_unwrap_cex :
    (deserializeLoggingEvent 0 (serializeLoggingEvent
        ⟨"c", 1, Level.INFO, [.obj [("stack", .str "s"), ("foo", .str "x")]]⟩)).data
      = .arr [.str "s"] ∧
    jsStringify (.obj [("stack", .str "s"), ("foo", .str "x")]) ≠ some emptyObjText ∧
    JsValue.str "s" ≠ .obj [("stack", .str "s"), ("foo", .str "x")] :=
  ⟨by rfl, by decide, fun h => JsValue.noConfusion h⟩

/-- C6 (amended): the decoder collapses a `data` element to its `stack`
value whenever the element is truthy and its `stack` property is a non-empty
string — including richer objects carrying other fields, which the encoder
passed through unrewritten; decode does not require the record to contain
only the stack string. -/
theorem claim_decode_unwrap_amended (now : Int) (e : LoggingEvent) (i : Nat)
    (v : JsValue) (S : String)
    (hv : e.data[i]? = some v)
    (hpres : (jsToJson v).map jsOfJson = some v)
    (hstack : getProp v "stack" = .str S)
    (hS : S ≠ "")
    (hne : jsStringify v ≠ some emptyObjText) :
    ∃ xs, (deserializeLoggingEvent now (serializeLoggingEvent e)).data = .arr xs
      ∧ xs[i]? = some (.str S) := by
  rw [deserialize_serialize]
  refine ⟨_, rfl, ?_⟩
  rw [jsOfJsonArr_eq_map]
  simp only [List.map_map, List.getElem?_map, hv, Option.map_some']
  obtain ⟨j, hj, hji⟩ : ∃ j, jsToJson v = some j ∧ jsOfJson j = v := by
    cases hjj : jsToJson v with
    | none => rw [hjj] at hpres; exact absurd hpres (by simp)
    | some j =>
      rw [hjj] at hpres
      exact ⟨j, rfl, by simpa using hpres⟩
  have hrw : rewriteItem v = v := by
    unfold rewriteItem
    have : (jsStringify v == some emptyObjText) = false := by
      cases hb : jsStringify v == some emptyObjText with
      | false => rfl
      | true => exact absurd (eq_of_beq hb) hne
    rw [this]
    simp
  have htr : truthy v = true := truthy_of_getProp_str hstack
  have hSb : truthy (JsValue.str S) = true := by simp [truthy, hS]
  simp only [Function.comp_apply, hrw, hj, Option.getD_some, hji]
  unfold unwrapItem
  rw [hstack, htr, hSb]
  rfl

theorem claim_decode_unwrap_witness :
    ((⟨"c", 1, Level.INFO, [.obj [("stack", .str "s"), ("foo", .str "x")]]⟩ :
        LoggingEvent).data[0]?
        = some (.obj [("stack", .str "s"), ("foo", .str "x")]) ∧
     getProp (.obj [("stack", .str "s"), ("foo", .str "x")]) "stack" = .str "s" ∧
     ("s" : String) ≠ "" ∧
     jsStringify (.obj [("stack", .str "s"), ("foo", .str "x")]) ≠ some emptyObjText) ∧
    (∃ xs, (deserializeLoggingEvent 2 (serializeLoggingEvent
        ⟨"c", 1, Level.INFO, [.obj [("stack", .str "s"), ("foo", .str "x")]]⟩)).data
        = .arr xs ∧ xs[0]? = some (.str "s")) :=
  ⟨⟨rfl, rfl, by decide, by decide⟩,
   claim_decode_unwrap_amended 2
     ⟨"c", 1, Level.INFO, [.obj [("stack", .str "s"), ("foo", .str "x")]]⟩ 0
     (.obj [("stack", .str "s"), ("foo", .str "x")]) "s" rfl rfl rfl
     (by decide) (by decide)⟩

/-- C7: a message carrying the log sentinel tag from a worker with pid `P`
and identifier `I` is decoded and dispatched with `pid = P` and
`cluster = { master := coordinator pid, worker := P, workerId := I }`;
dispatch itself passes every invoked destination the event unchanged, so an
event produced locally in the coordinator (no `pid`, no `cluster`) is
dispatched without either field being added. -/
theorem claim_provenance (cfg : ClusteredConfig) (now masterPid workerPid workerId : Int)
    (msg : WorkerMessage) (htag : msg.msgType = .str logMessageTag) :
    (∃ ev tr, handleWorkerMessage cfg now masterPid workerPid workerId msg
        = some (ev, tr) ∧
      ev.pid = some workerPid ∧
      ev.cluster = some ⟨masterPid, workerPid, workerId⟩) ∧
    (∀ (ev : DecodedEvent) (tr : List (Nat × DecodedEvent)),
      ev.pid = none → ev.cluster = none →
      masterAppenderRun cfg ev = some tr →
      ∀ p ∈ tr, p.2 = ev ∧ p.2.pid = none ∧ p.2.cluster = none) := by
  constructor
  · have heq : handleWorkerMessage cfg now masterPid workerPid workerId msg
        = some ({ deserializeLoggingEvent now msg.event with
                    pid := some workerPid,
                    cluster := some ⟨masterPid, workerPid, workerId⟩ },
                masterAppenderRun cfg
                  { deserializeLoggingEvent now msg.event with
                    pid := some workerPid,
                    cluster := some ⟨masterPid, workerPid, workerId⟩ }) := by
      unfold handleWorkerMessage
      rw [htag]
      rfl
    exact ⟨_, _, heq, rfl, rfl⟩
  · intro ev tr hpid hclu htr p hp
    have hev : p.2 = ev := by
      unfold masterAppenderRun at htr
      cases hc : cfg.actualAppenders with
      | none =>
        rw [hc] at htr
        simp only [Option.some_inj] at htr
        subst htr
        simp at hp
      | some acts =>
        rw [hc] at htr
        exact masterLoop_event_inv cfg.appenders ev acts.length 0 tr htr p hp
    exact ⟨hev, by rw [hev, hpid], by rw [hev, hclu]⟩

theorem claim_provenance_witness :
    ((⟨.str logMessageTag, "5"⟩ : WorkerMessage).msgType = .str logMessageTag) ∧
    (∃ ev tr, handleWorkerMessage ⟨[], none⟩ 21 100 200 1 ⟨.str logMessageTag, "5"⟩
        = some (ev, tr) ∧
      ev.pid = some 200 ∧ ev.cluster = some ⟨100, 200, 1⟩) :=
  ⟨rfl, (claim_provenance ⟨[], none⟩ 21 100 200 1 ⟨.str logMessageTag, "5"⟩ rfl).1⟩

/-- C8: dispatching with no `actualAppenders` installed, or with an empty
destination list, invokes zero destinations and completes without error. -/
theorem claim_preconfig_drop (cfg : ClusteredConfig) (ev : DecodedEvent)
    (h : cfg.actualAppenders = none ∨ cfg.actualAppenders = some []) :
    masterAppenderRun cfg ev = some [] := by
  unfold masterAppenderRun
  rcases h with h | h <;> rw [h]
  rfl

theorem claim_preconfig_drop_witness :
    masterAppenderRun ⟨[⟨some "A"⟩], none⟩
        { categoryName := .str "A", startTime := none, level := none, data := .null }
      = some [] ∧
    masterAppenderRun ⟨[], some []⟩
        { categoryName := .str "A", startTime := none, level := none, data := .null }
      = some [] :=
  ⟨claim_preconfig_drop _ _ (Or.inl rfl), claim_preconfig_drop _ _ (Or.inr rfl)⟩

/-- C9: the appender `createAppender` returns in a non-master process sends,
inside a worker, exactly one channel message — tagged with the fixed
sentinel and carrying `serializeLoggingEvent` of the event — and outside a
worker performs no sends at all. -/
theorem claim_forwarder (st : ClusterState) (cfg : ClusteredConfig)
    (e : LoggingEvent) :
    (st.isMaster = false →
        createAppender st cfg = .inr (workerAppenderRun st.isWorker)) ∧
    (st.isWorker = true →
        workerAppenderRun st.isWorker e
          = [⟨.str logMessageTag, serializeLoggingEvent e⟩]) ∧
    (st.isWorker = false → workerAppenderRun st.isWorker e = []) := by
  refine ⟨fun h => ?_, fun h => ?_, fun h => ?_⟩
  · simp [createAppender, h]
  · simp [workerAppenderRun, h]
  · simp [workerAppenderRun, h]

theorem claim_forwarder_witness :
    createAppender ⟨false, true⟩ ⟨[], none⟩ = .inr (workerAppenderRun true) ∧
    workerAppenderRun true ⟨"c", 1, Level.INFO, []⟩
      = [⟨.str logMessageTag, serializeLoggingEvent ⟨"c", 1, Level.INFO, []⟩⟩] ∧
    workerAppenderRun false ⟨"c", 1, Level.INFO, []⟩ = [] :=
  ⟨(claim_forwarder ⟨false, true⟩ ⟨[], none⟩ ⟨"c", 1, Level.INFO, []⟩).1 rfl,
   (claim_forwarder ⟨false, true⟩ ⟨[], none⟩ ⟨"c", 1, Level.INFO, []⟩).2.1 rfl,
   (claim_forwarder ⟨true, false⟩ ⟨[], none⟩ ⟨"c", 1, Level.INFO, []⟩).2.2 rfl⟩

end Log4jsClustered
